import Mathlib

/-
Verification of the ProtEnc protocol-encoding engine (src/protenc.h).

The engine attaches a finite-state protocol to a wrapped value: a
Protocol Graph lists initial states, ordinary transitions, final
(consuming) transitions and read-only queries; a wrapper carries the
current state and owns the wrapped value, and every call is resolved
against the graph.  In C++ the resolution happens at compile time via
template specialization; here the same data and lookup algorithm are
embedded as executable Lean functions, with `Option` encoding
"compiles / is rejected at the call site".
-/

namespace ProtEnc

/-- One entry of the protocol graph, mirroring the three entry templates
of protenc.h: `Transition<Start, End, FunctionPointer>`,
`FinalTransition<Start, FunctionPointer>`, `ValidQuery<Start, FunctionPointer>`.
`S` is the state domain, `Op` the operation-identity domain (the
function-pointer value in C++). -/
inductive Entry (S Op : Type) where
  | Transition (startState endState : S) (op : Op)
  | FinalTransition (startState : S) (op : Op)
  | ValidQuery (startState : S) (op : Op)
deriving DecidableEq

variable {S Op W A R : Type}

/-- The `(start, operation)` key of an entry: the two template arguments
that the `find_transition_t` specializations match on. -/
def Entry.key : Entry S Op → S × Op
  | .Transition s _ f => (s, f)
  | .FinalTransition s f => (s, f)
  | .ValidQuery s f => (s, f)

/-- The operation identity of an entry. -/
def Entry.op : Entry S Op → Op
  | .Transition _ _ f => f
  | .FinalTransition _ f => f
  | .ValidQuery _ f => f

/-- Whether an entry is an ordinary `Transition`. -/
def Entry.isOrdinary : Entry S Op → Bool
  | .Transition _ _ _ => true
  | _ => false

/-- Whether an entry is a `FinalTransition`. -/
def Entry.isFinal : Entry S Op → Bool
  | .FinalTransition _ _ => true
  | _ => false

/-- Whether an entry is a `ValidQuery`. -/
def Entry.isQuery : Entry S Op → Bool
  | .ValidQuery _ _ => true
  | _ => false

variable [DecidableEq S] [DecidableEq Op]

/-- The matching test performed by the three "Found" specializations of
`find_transition_t`: the head entry is selected exactly when its start
state equals `CurrentState` and its function pointer equals
`FunctionPointer`, whatever its kind. -/
def keyMatches (cur : S) (fp : Op) (e : Entry S Op) : Bool :=
  decide (e.key = (cur, fp))

/-- `find_transition_t` of protenc.h: scan the entry list left to right
and return the first entry whose `(start, operation)` key is
`(cur, fp)`; `none` models the `NotFound` result of the primary
template.  The three "Found" specializations (one per entry kind) are
preferred over the "Recurse" specialization, which gives exactly
first-match semantics. -/
def find_transition (cur : S) (fp : Op) : List (Entry S Op) → Option (Entry S Op)
  | [] => none
  | e :: rest =>
    match e with
    | .Transition s t f =>
        if s = cur ∧ f = fp then some (.Transition s t f)
        else find_transition cur fp rest
    | .FinalTransition s f =>
        if s = cur ∧ f = fp then some (.FinalTransition s f)
        else find_transition cur fp rest
    | .ValidQuery s f =>
        if s = cur ∧ f = fp then some (.ValidQuery s f)
        else find_transition cur fp rest

/-- `return_of_transition` of protenc.h: the `EndState` member exists
only when `find_transition` yields an ordinary `Transition`; `none`
models the compile-time rejection (the `Transition not found`
static assertion, or the absence of an `EndState` member). -/
def return_of_transition (transitions : List (Entry S Op)) (cur : S) (fp : Op) :
    Option S :=
  match find_transition cur fp transitions with
  | some (.Transition _ t _) => some t
  | _ => none

/-- `return_of_final_transition` of protenc.h: the result type exists
(the call compiles) exactly when `find_transition` on the final
transition table yields a `FinalTransition`; the `Final transition not
found` static assertion rejects `NotFound`. -/
def return_of_final_transition (finals : List (Entry S Op)) (cur : S) (fp : Op) :
    Bool :=
  match find_transition cur fp finals with
  | some (.FinalTransition _ _) => true
  | _ => false

/-- `return_of_valid_query` of protenc.h: the result type exists exactly
when `find_transition` on the query table yields a `ValidQuery`; the
`Valid query not found` static assertion rejects `NotFound`. -/
def return_of_valid_query (queries : List (Entry S Op)) (cur : S) (fp : Op) :
    Bool :=
  match find_transition cur fp queries with
  | some (.ValidQuery _ _) => true
  | _ => false

/-- `check_initial_state_v` of protenc.h: the fold
`((State == InitialState) || ...)` over the declared initial states. -/
def check_initial_state_v (s : S) (inits : List S) : Bool :=
  inits.any (fun i => decide (s = i))

/-- The reference qualifier of a C++ member function type. -/
inductive RefQual where
  | noRef
  | lvalueRef
  | rvalueRef
deriving DecidableEq

/-- The shape of a pointer-to-member-function type, as far as the
partial specializations of `is_pointer_to_r_value_member_function`
discriminate it: reference qualifier, cv qualifiers and the
noexcept marker (part of the type since C++17). -/
structure MemFnPtrType where
  refQual : RefQual
  isConst : Bool
  isVolatile : Bool
  isNoexcept : Bool
deriving DecidableEq

/-- `is_pointer_to_r_value_member_function` of protenc.h: the primary
template is `false_type`; the single specialization matches exactly
`R (T::*)(Args...) &&` - rvalue-ref qualified, with no const, no
volatile and no noexcept in the type. -/
def is_pointer_to_r_value_member_function (t : MemFnPtrType) : Bool :=
  match t with
  | ⟨.rvalueRef, false, false, false⟩ => true
  | _ => false

/-- The protocol graph handed to `GenericWrapper`: initial states plus
the three entry tables (`InitialStates`, `Transitions`,
`FinalTransitions`, `ValidQueries` template arguments). -/
structure ProtocolGraph (S Op : Type) where
  initialStates : List S
  transitions : List (Entry S Op)
  finalTransitions : List (Entry S Op)
  validQueries : List (Entry S Op)

/-- The state-carrying proxy: `GenericWrapper` holds the current state
(a template argument in C++) and owns the wrapped value `wrapped_`. -/
structure GenericWrapper (S W : Type) where
  currentState : S
  wrapped_ : W
deriving DecidableEq

/-- The public `GenericWrapper(Wrapped&&)` constructor: stores the
wrapped value and runs `check_initial_state`, whose static assertion
rejects construction at any state outside the initial-state list. -/
def mkGenericWrapper (g : ProtocolGraph S Op) (s : S) (w : W) :
    Option (GenericWrapper S W) :=
  if check_initial_state_v s g.initialStates then some ⟨s, w⟩ else none

/-- The private `GenericWrapper(Wrapped&&, bool ignore_check)`
constructor: stores the wrapped value and performs no initial-state
check. -/
def mkGenericWrapperUnchecked (s : S) (w : W) : GenericWrapper S W :=
  ⟨s, w⟩

/-- `GenericWrapper::call_transition`: invoke the member function on the
owned value, look up the target state with `return_of_transition`, and
rebuild the wrapper at the target state through the unchecked
constructor, moving the wrapped value.  `none` models the compile-time
rejection when no matching transition exists.  `impl` gives the
semantics of each member function on the wrapped value. -/
def call_transition (g : ProtocolGraph S Op) (impl : Op → A → W → W)
    (fp : Op) (args : A) (w : GenericWrapper S W) :
    Option (GenericWrapper S W) :=
  match return_of_transition g.transitions w.currentState fp with
  | some target =>
      some (mkGenericWrapperUnchecked target (impl fp args w.wrapped_))
  | none => none

/-- `GenericWrapper::call_final_transition`: compiles only when the
final-transition lookup succeeds (return type exists) and the static
assertion `is_pointer_to_r_value_member_function` holds for the member
function pointer; then it returns exactly the result of invoking the
consuming member function on the moved wrapped value.  `shape` gives
the pointer-to-member type of each operation, `finalImpl` its
semantics. -/
def call_final_transition (g : ProtocolGraph S Op) (shape : Op → MemFnPtrType)
    (finalImpl : Op → A → W → R) (fp : Op) (args : A)
    (w : GenericWrapper S W) : Option R :=
  if return_of_final_transition g.finalTransitions w.currentState fp
      && is_pointer_to_r_value_member_function (shape fp) then
    some (finalImpl fp args w.wrapped_)
  else
    none

/-- `GenericWrapper::call_valid_query`: compiles only when the query
lookup succeeds; a `const` member function of the wrapper, it returns
the result of invoking the member function on the owned value without
touching the wrapper. -/
def call_valid_query (g : ProtocolGraph S Op) (queryImpl : Op → A → W → R)
    (fp : Op) (args : A) (w : GenericWrapper S W) : Option R :=
  if return_of_valid_query g.validQueries w.currentState fp then
    some (queryImpl fp args w.wrapped_)
  else
    none

/-- How a wrapper method is declared: each wrapped operation name is
declared with exactly one of `PROTENC_DECLARE_TRANSITION`,
`PROTENC_DECLARE_FINAL_TRANSITION`, `PROTENC_DECLARE_QUERY_METHOD`,
which routes the call to the matching `call_*` member. -/
inductive DeclKind where
  | transitionDecl
  | finalDecl
  | queryDecl
deriving DecidableEq

/-- Observable outcome of one successful call on a wrapper: a successor
wrapper (ordinary transition), a terminal result (final transition),
or a query result together with the still-live wrapper. -/
inductive CallResult (S W R : Type) where
  | next (w : GenericWrapper S W)
  | finished (r : R)
  | queried (r : R) (w : GenericWrapper S W)
deriving DecidableEq

/-- Calling the generated wrapper method for operation `fp`: the macro
used to declare `fp` (recorded by `kinds`) routes the call to
`call_transition`, `call_final_transition` or `call_valid_query`.  The
query path leaves the wrapper untouched (the method is `const`), so
the same wrapper is returned alongside the result. -/
def call_op (g : ProtocolGraph S Op) (kinds : Op → DeclKind)
    (shape : Op → MemFnPtrType) (impl : Op → A → W → W)
    (finalImpl : Op → A → W → R) (queryImpl : Op → A → W → R)
    (fp : Op) (args : A) (w : GenericWrapper S W) :
    Option (CallResult S W R) :=
  match kinds fp with
  | .transitionDecl => (call_transition g impl fp args w).map .next
  | .finalDecl => (call_final_transition g shape finalImpl fp args w).map .finished
  | .queryDecl => (call_valid_query g queryImpl fp args w).map (fun r => .queried r w)

/-- A table contains an entry with key `(q, fp)`. -/
def hasKey (l : List (Entry S Op)) (q : S) (fp : Op) : Bool :=
  l.any (keyMatches q fp)

/-- A chain of ordinary transition calls: each element supplies the
operation and its argument, and each successful call hands its
successor wrapper to the next call. -/
def run_transitions (g : ProtocolGraph S Op) (impl : Op → A → W → W) :
    GenericWrapper S W → List (Op × A) → Option (GenericWrapper S W)
  | w, [] => some w
  | w, (fp, a) :: rest =>
    match call_transition g impl fp a w with
    | some w2 => run_transitions g impl w2 rest
    | none => none

/-- A graph is well formed for a declaration-kind assignment when each
table holds only entries of its own kind and every operation appearing
in a table was declared with the matching macro. -/
def wellFormedGraph (g : ProtocolGraph S Op) (kinds : Op → DeclKind) : Prop :=
  (∀ e ∈ g.transitions, e.isOrdinary = true) ∧
  (∀ e ∈ g.finalTransitions, e.isFinal = true) ∧
  (∀ e ∈ g.validQueries, e.isQuery = true) ∧
  (∀ e ∈ g.transitions, kinds e.op = .transitionDecl) ∧
  (∀ e ∈ g.finalTransitions, kinds e.op = .finalDecl) ∧
  (∀ e ∈ g.validQueries, kinds e.op = .queryDecl)

/-- Every operation declared as a final transition is implemented by a
plain rvalue-ref-qualified member function (the consuming contract the
static assertion enforces). -/
def consumingFinals (g : ProtocolGraph S Op) (shape : Op → MemFnPtrType) : Prop :=
  ∀ e ∈ g.finalTransitions, is_pointer_to_r_value_member_function (shape e.op) = true

/-! ## The HTTP-builder example protocol (example/http_connection.cc),
used as the concrete instance for witnesses. -/

/-- The states of the HTTP connection builder protocol. -/
inductive HState where
  | START
  | HEADERS
  | BODY
deriving DecidableEq

/-- The operation identities (member-function pointers) of the HTTP
connection builder. -/
inductive HOp where
  | add_header
  | add_body
  | build
  | num_headers
deriving DecidableEq

/-- The unconstrained HTTP connection builder: a header list and a
body. -/
structure HTTPConnectionBuilder where
  headers_ : List String
  body_ : String
deriving DecidableEq

/-- The protocol graph of the example: initial state START; add_header
goes START to HEADERS and loops on HEADERS; add_body goes HEADERS to
BODY; build is final at BODY; num_headers is a query at BODY. -/
def httpGraph : ProtocolGraph HState HOp where
  initialStates := [.START]
  transitions :=
    [ .Transition .START .HEADERS .add_header,
      .Transition .HEADERS .HEADERS .add_header,
      .Transition .HEADERS .BODY .add_body ]
  finalTransitions := [ .FinalTransition .BODY .build ]
  validQueries := [ .ValidQuery .BODY .num_headers ]

/-- Which macro declares each operation of the example wrapper. -/
def httpKinds : HOp → DeclKind
  | .add_header => .transitionDecl
  | .add_body => .transitionDecl
  | .build => .finalDecl
  | .num_headers => .queryDecl

/-- Member-function type shapes of the example: add_header and add_body
are unqualified, build is rvalue-ref qualified, num_headers is const. -/
def httpShape : HOp → MemFnPtrType
  | .add_header => ⟨.noRef, false, false, false⟩
  | .add_body => ⟨.noRef, false, false, false⟩
  | .build => ⟨.rvalueRef, false, false, false⟩
  | .num_headers => ⟨.noRef, true, false, false⟩

/-- Mutating semantics of the transition operations: add_header appends
a header, add_body sets the body, the others leave the value alone. -/
def httpImpl : HOp → String → HTTPConnectionBuilder → HTTPConnectionBuilder
  | .add_header, h, b => ⟨b.headers_ ++ [h], b.body_⟩
  | .add_body, s, b => ⟨b.headers_, s⟩
  | _, _, b => b

/-- Result domain of final and query operations of the example: build
produces the connection tuple, num_headers a count. -/
inductive HTTPResult where
  | connection (headers : List String) (body : String)
  | count (n : Nat)
deriving DecidableEq

/-- Semantics of the consuming build operation. -/
def httpFinalImpl : HOp → String → HTTPConnectionBuilder → HTTPResult
  | _, _, b => .connection b.headers_ b.body_

/-- Semantics of the num_headers query. -/
def httpQueryImpl : HOp → String → HTTPConnectionBuilder → HTTPResult
  | _, _, b => .count b.headers_.length

/-! ## Helper lemmas about the resolver -/

/-- Unfolding step of the scan: the head entry is returned exactly when
its key matches, whatever its kind; otherwise the scan recurses. -/
theorem find_transition_cons (cur : S) (fp : Op) (e : Entry S Op)
    (l : List (Entry S Op)) :
    find_transition cur fp (e :: l) =
      if keyMatches cur fp e then some e else find_transition cur fp l := by
  cases e <;> simp [find_transition, keyMatches, Entry.key, Prod.ext_iff]

/-- The scan fails exactly when no entry of the table has the key. -/
theorem find_transition_eq_none (cur : S) (fp : Op) (l : List (Entry S Op)) :
    find_transition cur fp l = none ↔ ∀ e ∈ l, keyMatches cur fp e = false := by
  induction l with
  | nil => simp [find_transition]
  | cons a l ih =>
    rw [find_transition_cons]
    by_cases h : keyMatches cur fp a <;> simp [h, ih]

/-- The scan succeeds exactly when some entry of the table has the key. -/
theorem find_transition_isSome (cur : S) (fp : Op) (l : List (Entry S Op)) :
    (find_transition cur fp l).isSome = hasKey l cur fp := by
  induction l with
  | nil => rfl
  | cons a l ih =>
    rw [find_transition_cons, hasKey, List.any_cons]
    by_cases h : keyMatches cur fp a
    · simp [h]
    · simp only [h, Bool.false_eq_true, if_false, Bool.false_or]
      exact ih

/-- A found entry belongs to the table and has the requested key. -/
theorem find_transition_mem (cur : S) (fp : Op) (l : List (Entry S Op))
    (e : Entry S Op) (h : find_transition cur fp l = some e) :
    e ∈ l ∧ keyMatches cur fp e = true := by
  induction l with
  | nil => simp [find_transition] at h
  | cons a l ih =>
    rw [find_transition_cons] at h
    by_cases ha : keyMatches cur fp a
    · simp only [ha, if_pos] at h
      cases h
      exact ⟨List.mem_cons_self _ _, ha⟩
    · simp only [ha, Bool.false_eq_true, if_false] at h
      obtain ⟨hm, hk⟩ := ih h
      exact ⟨List.mem_cons_of_mem a hm, hk⟩

/-- First-match: when nothing before `e` matches and `e` matches, the
scan returns `e` regardless of what follows. -/
theorem find_transition_first (cur : S) (fp : Op) (l1 l2 : List (Entry S Op))
    (e : Entry S Op) (h1 : ∀ e' ∈ l1, keyMatches cur fp e' = false)
    (h2 : keyMatches cur fp e = true) :
    find_transition cur fp (l1 ++ e :: l2) = some e := by
  induction l1 with
  | nil => simp [find_transition_cons, h2]
  | cons a l ih =>
    rw [List.cons_append, find_transition_cons]
    have ha := h1 a (List.mem_cons_self a l)
    simp only [ha, Bool.false_eq_true, if_false]
    exact ih fun e' he => h1 e' (List.mem_cons_of_mem a he)

/-- On a table holding only ordinary transitions, the end-state lookup
is defined exactly when the table has the key. -/
theorem return_of_transition_isSome (transitions : List (Entry S Op))
    (cur : S) (fp : Op) (hw : ∀ e ∈ transitions, e.isOrdinary = true) :
    (return_of_transition transitions cur fp).isSome = hasKey transitions cur fp := by
  rw [← find_transition_isSome]
  unfold return_of_transition
  cases hfind : find_transition cur fp transitions with
  | none => rfl
  | some e =>
    obtain ⟨hm, _⟩ := find_transition_mem cur fp transitions e hfind
    have := hw e hm
    cases e <;> simp_all [Entry.isOrdinary]

/-- On a table holding only final transitions, the final lookup is
defined exactly when the table has the key. -/
theorem return_of_final_transition_eq (finals : List (Entry S Op))
    (cur : S) (fp : Op) (hw : ∀ e ∈ finals, e.isFinal = true) :
    return_of_final_transition finals cur fp = hasKey finals cur fp := by
  rw [← find_transition_isSome]
  unfold return_of_final_transition
  cases hfind : find_transition cur fp finals with
  | none => rfl
  | some e =>
    obtain ⟨hm, _⟩ := find_transition_mem cur fp finals e hfind
    have := hw e hm
    cases e <;> simp_all [Entry.isFinal]

/-- On a table holding only queries, the query lookup is defined exactly
when the table has the key. -/
theorem return_of_valid_query_eq (queries : List (Entry S Op))
    (cur : S) (fp : Op) (hw : ∀ e ∈ queries, e.isQuery = true) :
    return_of_valid_query queries cur fp = hasKey queries cur fp := by
  rw [← find_transition_isSome]
  unfold return_of_valid_query
  cases hfind : find_transition cur fp queries with
  | none => rfl
  | some e =>
    obtain ⟨hm, _⟩ := find_transition_mem cur fp queries e hfind
    have := hw e hm
    cases e <;> simp_all [Entry.isQuery]

/-- A matching entry names exactly the requested operation. -/
theorem keyMatches_op (cur : S) (fp : Op) (e : Entry S Op)
    (h : keyMatches cur fp e = true) : e.op = fp := by
  rw [keyMatches, decide_eq_true_iff] at h
  cases e <;> simp_all [Entry.key, Entry.op]

/-- An operation appearing in a table forces its declaration kind, under
well-formedness. -/
theorem hasKey_op_kind (l : List (Entry S Op)) (kinds : Op → DeclKind)
    (k : DeclKind) (hw : ∀ e ∈ l, kinds e.op = k) (q : S) (fp : Op)
    (h : hasKey l q fp = true) : kinds fp = k := by
  rw [hasKey, List.any_eq_true] at h
  obtain ⟨e, hm, hk⟩ := h
  rw [← keyMatches_op q fp e hk]
  exact hw e hm

/-- The initial-state fold is membership in the initial-state list. -/
theorem check_initial_state_v_iff (s : S) (inits : List S) :
    check_initial_state_v s inits = true ↔ s ∈ inits := by
  rw [check_initial_state_v, List.any_eq_true]
  constructor
  · rintro ⟨i, hm, hi⟩
    rw [decide_eq_true_iff] at hi
    rw [hi]
    exact hm
  · intro hm
    exact ⟨s, hm, by simp⟩

/-- A transition call compiles exactly when the end-state lookup is
defined. -/
theorem call_transition_isSome (g : ProtocolGraph S Op) (impl : Op → A → W → W)
    (fp : Op) (args : A) (w : GenericWrapper S W) :
    (call_transition g impl fp args w).isSome =
      (return_of_transition g.transitions w.currentState fp).isSome := by
  rw [call_transition]
  cases return_of_transition g.transitions w.currentState fp <;> rfl

/-- A final-transition call compiles exactly when its lookup is defined
and the member function is rvalue-ref qualified. -/
theorem call_final_transition_isSome (g : ProtocolGraph S Op)
    (shape : Op → MemFnPtrType) (finalImpl : Op → A → W → R)
    (fp : Op) (args : A) (w : GenericWrapper S W) :
    (call_final_transition g shape finalImpl fp args w).isSome =
      (return_of_final_transition g.finalTransitions w.currentState fp
        && is_pointer_to_r_value_member_function (shape fp)) := by
  rw [call_final_transition]
  cases h : (return_of_final_transition g.finalTransitions w.currentState fp
      && is_pointer_to_r_value_member_function (shape fp)) <;> simp [h]

/-- A query call compiles exactly when the query lookup is defined. -/
theorem call_valid_query_isSome (g : ProtocolGraph S Op)
    (queryImpl : Op → A → W → R) (fp : Op) (args : A)
    (w : GenericWrapper S W) :
    (call_valid_query g queryImpl fp args w).isSome =
      return_of_valid_query g.validQueries w.currentState fp := by
  rw [call_valid_query]
  cases h : return_of_valid_query g.validQueries w.currentState fp <;> simp [h]

/-- Mapping a constructor over an optional result does not change
whether it is present. -/
theorem isSome_opmap {α β : Type} (f : α → β) (o : Option α) :
    (Option.map f o).isSome = o.isSome := by
  cases o <;> rfl

/-- A member-function shape accepted by the rvalue predicate has the
rvalue reference qualifier. -/
theorem r_value_shape_refQual (t : MemFnPtrType)
    (h : is_pointer_to_r_value_member_function t = true) :
    t.refQual = RefQual.rvalueRef := by
  obtain ⟨r, c, v, n⟩ := t
  cases r <;> cases c <;> cases v <;> cases n <;>
    simp_all [is_pointer_to_r_value_member_function]

/-! ## Claim theorems -/

/-- Claim C2: for every protocol graph, constructing a wrapper at state
`s` succeeds exactly when `s` is a member of the declared initial-state
set; at any other state the constructor is rejected (before any call is
possible). -/
theorem construction_iff_initial_state (g : ProtocolGraph S Op) (s : S) (w : W) :
    (mkGenericWrapper g s w).isSome = true ↔ s ∈ g.initialStates := by
  rw [mkGenericWrapper]
  by_cases h : check_initial_state_v s g.initialStates = true
  · simp only [h, if_pos, Option.isSome_some, true_iff]
    exact (check_initial_state_v_iff s g.initialStates).mp h
  · simp only [h, Bool.false_eq_true, if_false, Option.isSome_none]
    constructor
    · intro hc; cases hc
    · intro hm
      exact absurd ((check_initial_state_v_iff s g.initialStates).mpr hm) h

/-- Witness for C2: START is initial and construction succeeds there;
HEADERS is not initial and construction there is rejected. -/
theorem construction_iff_initial_state_witness :
    (mkGenericWrapper httpGraph HState.START
      (⟨[], ""⟩ : HTTPConnectionBuilder)).isSome = true ∧
    ¬ (mkGenericWrapper httpGraph HState.HEADERS
      (⟨[], ""⟩ : HTTPConnectionBuilder)).isSome = true :=
  ⟨(construction_iff_initial_state httpGraph HState.START
      (⟨[], ""⟩ : HTTPConnectionBuilder)).mpr (by decide),
   fun hc =>
     absurd ((construction_iff_initial_state httpGraph HState.HEADERS
       (⟨[], ""⟩ : HTTPConnectionBuilder)).mp hc) (by decide)⟩

/-- Claim C10: the consumption predicate holds exactly for the plain
rvalue-ref-qualified member-function shape; any combination with const,
volatile or noexcept falls through to the false primary template. -/
theorem r_value_predicate_exact (t : MemFnPtrType) :
    is_pointer_to_r_value_member_function t = true ↔
      t = ⟨RefQual.rvalueRef, false, false, false⟩ := by
  obtain ⟨r, c, v, n⟩ := t
  cases r <;> cases c <;> cases v <;> cases n <;>
    simp [is_pointer_to_r_value_member_function]

/-- Witness for C10: the plain rvalue shape is accepted while the
const-qualified rvalue shape is rejected. -/
theorem r_value_predicate_exact_witness :
    is_pointer_to_r_value_member_function ⟨RefQual.rvalueRef, false, false, false⟩ = true ∧
    ¬ is_pointer_to_r_value_member_function ⟨RefQual.rvalueRef, true, false, false⟩ = true :=
  ⟨(r_value_predicate_exact ⟨RefQual.rvalueRef, false, false, false⟩).mpr rfl,
   fun hc => absurd ((r_value_predicate_exact ⟨RefQual.rvalueRef, true, false, false⟩).mp hc)
     (by decide)⟩

/-- Claim C3: when the current state has a matching transition with
declared end state `t`, the transition call invokes the operation on
the owned value with the given arguments, and yields a new wrapper at
state `t` owning the mutated value (the same value, moved, not a
copy). -/
theorem call_transition_spec (g : ProtocolGraph S Op) (impl : Op → A → W → W)
    (fp : Op) (args : A) (w : GenericWrapper S W) (t : S)
    (h : return_of_transition g.transitions w.currentState fp = some t) :
    call_transition g impl fp args w =
      some ⟨t, impl fp args w.wrapped_⟩ := by
  rw [call_transition, h]
  rfl

/-- Witness for C3: add_header at START moves to HEADERS and appends the
header to the owned builder. -/
theorem call_transition_spec_witness :
    return_of_transition httpGraph.transitions HState.START HOp.add_header =
      some HState.HEADERS ∧
    call_transition httpGraph httpImpl HOp.add_header "a"
      ⟨HState.START, ⟨[], ""⟩⟩ =
      some ⟨HState.HEADERS, ⟨["a"], ""⟩⟩ :=
  ⟨by decide,
   call_transition_spec httpGraph httpImpl HOp.add_header "a"
     ⟨HState.START, ⟨[], ""⟩⟩ HState.HEADERS (by decide)⟩

/-- Claim C9: a successor wrapper produced by an ordinary transition is
built through the unchecked private constructor, so a transition may
land on a state outside the initial-state set without any error, while
direct construction at that same state is rejected. -/
theorem transition_bypasses_initial_check (g : ProtocolGraph S Op)
    (impl : Op → A → W → W) (fp : Op) (args : A) (w : GenericWrapper S W)
    (t : S) (v : W)
    (h : return_of_transition g.transitions w.currentState fp = some t)
    (ht : t ∉ g.initialStates) :
    call_transition g impl fp args w =
      some (mkGenericWrapperUnchecked t (impl fp args w.wrapped_)) ∧
    mkGenericWrapper g t v = none := by
  constructor
  · rw [call_transition, h]
  · rw [mkGenericWrapper, if_neg]
    intro hc
    exact ht ((check_initial_state_v_iff t g.initialStates).mp hc)

/-- Witness for C9: HEADERS is not an initial state, yet the add_header
transition lands there successfully; constructing directly at HEADERS
fails. -/
theorem transition_bypasses_initial_check_witness :
    call_transition httpGraph httpImpl HOp.add_header "a"
      ⟨HState.START, ⟨[], ""⟩⟩ =
      some (mkGenericWrapperUnchecked HState.HEADERS
        (⟨["a"], ""⟩ : HTTPConnectionBuilder)) ∧
    mkGenericWrapper httpGraph HState.HEADERS
      (⟨[], ""⟩ : HTTPConnectionBuilder) = none :=
  transition_bypasses_initial_check httpGraph httpImpl HOp.add_header "a"
    ⟨HState.START, ⟨[], ""⟩⟩ HState.HEADERS ⟨[], ""⟩ (by decide) (by decide)

/-- Claim C5: the resolver scans the tables in declaration order and
returns the first entry keyed `(cur, fp)`: anything before the first
match is skipped, two entries with an identical key resolve silently to
the first declared one, and with no match the result is NotFound. -/
theorem resolver_first_match (cur : S) (fp : Op) :
    (∀ (l1 l2 : List (Entry S Op)) (e : Entry S Op),
        (∀ e2 ∈ l1, keyMatches cur fp e2 = false) →
        keyMatches cur fp e = true →
        find_transition cur fp (l1 ++ e :: l2) = some e) ∧
    (∀ l : List (Entry S Op),
        (∀ e ∈ l, keyMatches cur fp e = false) →
        find_transition cur fp l = none) ∧
    (∀ (e e2 : Entry S Op) (l : List (Entry S Op)),
        keyMatches cur fp e = true → keyMatches cur fp e2 = true →
        find_transition cur fp (e :: e2 :: l) = some e) := by
  refine ⟨?_, ?_, ?_⟩
  · exact fun l1 l2 e h1 h2 => find_transition_first cur fp l1 l2 e h1 h2
  · exact fun l h => (find_transition_eq_none cur fp l).mpr h
  · intro e e2 l he _
    rw [find_transition_cons, if_pos he]

/-- Witness for C5: with two transitions sharing the key
(START, add_header) but different end states, resolution silently picks
the first declared one. -/
theorem resolver_first_match_witness :
    find_transition HState.START HOp.add_header
      [Entry.Transition HState.START HState.HEADERS HOp.add_header,
       Entry.Transition HState.START HState.BODY HOp.add_header] =
      some (Entry.Transition HState.START HState.HEADERS HOp.add_header) :=
  (resolver_first_match HState.START HOp.add_header).2.2
    (Entry.Transition HState.START HState.HEADERS HOp.add_header)
    (Entry.Transition HState.START HState.BODY HOp.add_header) []
    (by decide) (by decide)

/-- Claim C4: a final-transition call on an operation that is not
rvalue-ref qualified (non-consuming) is rejected by the static
assertion; when the call is accepted, the operation was accepted by the
consumption predicate and the call returns exactly the result of the
consuming operation on the owned value (the wrapper and value are not
part of the result). -/
theorem call_final_transition_spec (g : ProtocolGraph S Op)
    (shape : Op → MemFnPtrType) (finalImpl : Op → A → W → R)
    (fp : Op) (args : A) (w : GenericWrapper S W) :
    ((shape fp).refQual ≠ RefQual.rvalueRef →
       call_final_transition g shape finalImpl fp args w = none) ∧
    (∀ r, call_final_transition g shape finalImpl fp args w = some r →
       is_pointer_to_r_value_member_function (shape fp) = true ∧
       r = finalImpl fp args w.wrapped_) := by
  constructor
  · intro h
    rw [call_final_transition, if_neg]
    simp only [Bool.and_eq_true, not_and]
    intro _ hp
    exact absurd (r_value_shape_refQual _ hp) h
  · intro r hr
    rw [call_final_transition] at hr
    by_cases hc : (return_of_final_transition g.finalTransitions w.currentState fp
        && is_pointer_to_r_value_member_function (shape fp)) = true
    · rw [if_pos hc] at hr
      injection hr with hr
      exact ⟨((Bool.and_eq_true _ _).mp hc).2, hr.symm⟩
    · rw [if_neg hc] at hr
      cases hr

/-- Witness for C4: the const-qualified num_headers is rejected as a
final transition even at a state where declaring it would match, while
the rvalue-qualified build at BODY is accepted and returns exactly the
built connection. -/
theorem call_final_transition_spec_witness :
    call_final_transition httpGraph httpShape httpFinalImpl HOp.num_headers "x"
      ⟨HState.BODY, ⟨["a"], "b"⟩⟩ = none ∧
    (is_pointer_to_r_value_member_function (httpShape HOp.build) = true ∧
      HTTPResult.connection ["a"] "b" =
        httpFinalImpl HOp.build "x" ⟨["a"], "b"⟩) :=
  ⟨(call_final_transition_spec httpGraph httpShape httpFinalImpl HOp.num_headers "x"
      ⟨HState.BODY, ⟨["a"], "b"⟩⟩).1 (by decide),
   (call_final_transition_spec httpGraph httpShape httpFinalImpl HOp.build "x"
      ⟨HState.BODY, ⟨["a"], "b"⟩⟩).2 (HTTPResult.connection ["a"] "b") (by decide)⟩

/-- Claim C6: a successful query call hands back the very wrapper it was
called on (same state, same owned value, still usable), and repeating
the call from that wrapper yields the same result and wrapper again. -/
theorem query_preserves_state (g : ProtocolGraph S Op) (kinds : Op → DeclKind)
    (shape : Op → MemFnPtrType) (impl : Op → A → W → W)
    (finalImpl queryImpl : Op → A → W → R) (fp : Op) (args : A)
    (w w2 : GenericWrapper S W) (r : R)
    (hk : kinds fp = DeclKind.queryDecl)
    (h : call_op g kinds shape impl finalImpl queryImpl fp args w =
           some (CallResult.queried r w2)) :
    w2 = w ∧
    call_op g kinds shape impl finalImpl queryImpl fp args w2 =
      some (CallResult.queried r w2) := by
  rw [call_op, hk] at h
  cases hq : call_valid_query g queryImpl fp args w with
  | none =>
    rw [hq] at h
    cases h
  | some r0 =>
    rw [hq, Option.map_some'] at h
    injection h with h
    injection h with h1 h2
    constructor
    · exact h2.symm
    · rw [call_op, hk, h2.symm, hq, Option.map_some', h1, h2]

/-- Witness for C6: querying num_headers at BODY returns the header
count and the untouched wrapper, twice in a row. -/
theorem query_preserves_state_witness :
    (⟨HState.BODY, ⟨["a"], "b"⟩⟩ : GenericWrapper HState HTTPConnectionBuilder) =
      ⟨HState.BODY, ⟨["a"], "b"⟩⟩ ∧
    call_op httpGraph httpKinds httpShape httpImpl httpFinalImpl httpQueryImpl
      HOp.num_headers "x" ⟨HState.BODY, ⟨["a"], "b"⟩⟩ =
      some (CallResult.queried (HTTPResult.count 1) ⟨HState.BODY, ⟨["a"], "b"⟩⟩) :=
  query_preserves_state httpGraph httpKinds httpShape httpImpl httpFinalImpl
    httpQueryImpl HOp.num_headers "x" ⟨HState.BODY, ⟨["a"], "b"⟩⟩
    ⟨HState.BODY, ⟨["a"], "b"⟩⟩ (HTTPResult.count 1) (by decide) (by decide)

/-- Claim C1: on a well-formed graph whose final operations honor the
consuming contract, a call on a wrapper at state `q` compiles exactly
when some transition, final transition or query keyed `(q, op)` exists
in the graph; with no such entry the call is rejected (`none`), never a
silent no-op. -/
theorem call_succeeds_iff_entry (g : ProtocolGraph S Op) (kinds : Op → DeclKind)
    (shape : Op → MemFnPtrType) (impl : Op → A → W → W)
    (finalImpl queryImpl : Op → A → W → R)
    (fp : Op) (args : A) (w : GenericWrapper S W)
    (hwf : wellFormedGraph g kinds) (hcons : consumingFinals g shape) :
    (call_op g kinds shape impl finalImpl queryImpl fp args w).isSome = true ↔
      (hasKey g.transitions w.currentState fp = true ∨
       hasKey g.finalTransitions w.currentState fp = true ∨
       hasKey g.validQueries w.currentState fp = true) := by
  obtain ⟨h1, h2, h3, h4, h5, h6⟩ := hwf
  have hnoT : kinds fp ≠ DeclKind.transitionDecl →
      hasKey g.transitions w.currentState fp = false := by
    intro hne
    cases hb : hasKey g.transitions w.currentState fp
    · rfl
    · exact absurd (hasKey_op_kind g.transitions kinds _ h4 _ _ hb) hne
  have hnoF : kinds fp ≠ DeclKind.finalDecl →
      hasKey g.finalTransitions w.currentState fp = false := by
    intro hne
    cases hb : hasKey g.finalTransitions w.currentState fp
    · rfl
    · exact absurd (hasKey_op_kind g.finalTransitions kinds _ h5 _ _ hb) hne
  have hnoQ : kinds fp ≠ DeclKind.queryDecl →
      hasKey g.validQueries w.currentState fp = false := by
    intro hne
    cases hb : hasKey g.validQueries w.currentState fp
    · rfl
    · exact absurd (hasKey_op_kind g.validQueries kinds _ h6 _ _ hb) hne
  rw [call_op]
  cases hk : kinds fp with
  | transitionDecl =>
    simp only [isSome_opmap, call_transition_isSome]
    rw [return_of_transition_isSome g.transitions _ _ h1,
        hnoF (by rw [hk]; intro hc; cases hc),
        hnoQ (by rw [hk]; intro hc; cases hc)]
    simp
  | finalDecl =>
    simp only [isSome_opmap, call_final_transition_isSome]
    rw [return_of_final_transition_eq g.finalTransitions _ _ h2,
        hnoT (by rw [hk]; intro hc; cases hc),
        hnoQ (by rw [hk]; intro hc; cases hc)]
    cases hb : hasKey g.finalTransitions w.currentState fp
    · simp
    · have hpred : is_pointer_to_r_value_member_function (shape fp) = true := by
        rw [hasKey, List.any_eq_true] at hb
        obtain ⟨e, hm, hkm⟩ := hb
        rw [← keyMatches_op w.currentState fp e hkm]
        exact hcons e hm
      simp [hpred]
  | queryDecl =>
    simp only [isSome_opmap, call_valid_query_isSome]
    rw [return_of_valid_query_eq g.validQueries _ _ h3,
        hnoT (by rw [hk]; intro hc; cases hc),
        hnoF (by rw [hk]; intro hc; cases hc)]
    simp

/-- Witness for C1: at START, add_header has an entry and compiles;
add_body has no entry at START and is rejected. -/
theorem call_succeeds_iff_entry_witness :
    ((call_op httpGraph httpKinds httpShape httpImpl httpFinalImpl httpQueryImpl
        HOp.add_header "a" ⟨HState.START, ⟨[], ""⟩⟩).isSome = true ↔
      (hasKey httpGraph.transitions HState.START HOp.add_header = true ∨
       hasKey httpGraph.finalTransitions HState.START HOp.add_header = true ∨
       hasKey httpGraph.validQueries HState.START HOp.add_header = true)) ∧
    ((call_op httpGraph httpKinds httpShape httpImpl httpFinalImpl httpQueryImpl
        HOp.add_body "x" ⟨HState.START, ⟨[], ""⟩⟩).isSome = true ↔
      (hasKey httpGraph.transitions HState.START HOp.add_body = true ∨
       hasKey httpGraph.finalTransitions HState.START HOp.add_body = true ∨
       hasKey httpGraph.validQueries HState.START HOp.add_body = true)) :=
  ⟨call_succeeds_iff_entry httpGraph httpKinds httpShape httpImpl httpFinalImpl
      httpQueryImpl HOp.add_header "a" ⟨HState.START, ⟨[], ""⟩⟩
      (by unfold wellFormedGraph; decide) (by unfold consumingFinals; decide),
   call_succeeds_iff_entry httpGraph httpKinds httpShape httpImpl httpFinalImpl
      httpQueryImpl HOp.add_body "x" ⟨HState.START, ⟨[], ""⟩⟩
      (by unfold wellFormedGraph; decide) (by unfold consumingFinals; decide)⟩

/-- Claim C7: two runs over the same graph, from wrappers at the same
state, applying the same operation sequence - but with possibly
different underlying value types, argument values and operation
semantics - succeed together and land on the same state: the successor
state is a function of (state, operation) only. -/
theorem transition_state_deterministic {W1 W2 A1 A2 : Type}
    (g : ProtocolGraph S Op)
    (impl1 : Op → A1 → W1 → W1) (impl2 : Op → A2 → W2 → W2)
    (w1 : GenericWrapper S W1) (w2 : GenericWrapper S W2)
    (calls1 : List (Op × A1)) (calls2 : List (Op × A2))
    (hops : calls1.map Prod.fst = calls2.map Prod.fst)
    (hstate : w1.currentState = w2.currentState) :
    Option.map GenericWrapper.currentState (run_transitions g impl1 w1 calls1) =
      Option.map GenericWrapper.currentState (run_transitions g impl2 w2 calls2) := by
  induction calls1 generalizing calls2 w1 w2 with
  | nil =>
    cases calls2 with
    | nil => simp [run_transitions, hstate]
    | cons q l => simp at hops
  | cons p rest ih =>
    cases calls2 with
    | nil => simp at hops
    | cons q rest2 =>
      obtain ⟨pf, pa⟩ := p
      obtain ⟨qf, qa⟩ := q
      simp only [List.map_cons, List.cons.injEq] at hops
      obtain ⟨hop, hrest⟩ := hops
      subst hop
      rw [run_transitions, run_transitions, call_transition, call_transition,
          hstate]
      cases hr : return_of_transition g.transitions w2.currentState pf with
      | none => rfl
      | some t => exact ih _ _ _ hrest rfl

/-- Witness for C7: one run mutates an HTTP builder with string
arguments, the other counts calls on a bare number; both runs of
add_header then add_body end at BODY. -/
theorem transition_state_deterministic_witness :
    Option.map GenericWrapper.currentState
      (run_transitions httpGraph httpImpl ⟨HState.START, ⟨[], ""⟩⟩
        [(HOp.add_header, "a"), (HOp.add_body, "x")]) =
    Option.map GenericWrapper.currentState
      (run_transitions httpGraph (fun _ (k : Nat) (n : Nat) => n + k)
        ⟨HState.START, 0⟩ [(HOp.add_header, 7), (HOp.add_body, 9)]) :=
  transition_state_deterministic httpGraph httpImpl
    (fun _ k n => n + k) ⟨HState.START, ⟨[], ""⟩⟩ ⟨HState.START, 0⟩
    [(HOp.add_header, "a"), (HOp.add_body, "x")]
    [(HOp.add_header, 7), (HOp.add_body, 9)] (by decide) rfl

end ProtEnc
